import Mathlib

/-!
Verification development for the BookGen single-header HTML generation
library (`bg.h`).  The stateful core of the library is shallowly embedded:

* the indentation tracker (`v_bg_depth`, `U_BG_INDENT`, `BG_TAG`, `BG_END`),
* the heading and numbering engine (`v_bg_chapter`, `BG_H`),
* the table-of-contents recorder (`v_bg_toc_*`, `BG_TOC`),
* the streaming Base64 encoder (`U_BG_TOBASE64`) and the inline image
  embedding wrapper (`BG_IMG_INLINE`).

The mutable global state of the C library becomes an explicit `BGState`
value threaded through the operations.  `assert` failures (which abort the
process) become the `BGResult.fatal` constructor, carrying the state as it
was at the moment of the abort, including all output already written to the
stream.  Output written with `fprintf`/`fwrite` is modelled as a list of
`Item`s, each of which renders to the exact byte string the C code prints.
-/

namespace BookGen

/-- Maximum number of headers in the document (`V_BG_MAX_TOC` in `bg.h`). -/
def V_BG_MAX_TOC : Nat := 100

/-- The Base64 alphabet used by `U_BG_TOBASE64` (`V_BG_BASE64_TABLE` in `bg.h`). -/
def V_BG_BASE64_TABLE : List Char :=
  "ABCDEFGHIJKLMNOPQRSTUVWXYZabcdefghijklmnopqrstuvwxyz0123456789+/".toList

/-- Table lookup `V_BG_BASE64_TABLE[n]`.  All indices produced by the encoder
are < 64 and bytes are unsigned, so the default is never reached on encoder
inputs. -/
def b64char (n : Nat) : Char := V_BG_BASE64_TABLE.getD n 'A'

/-- One iteration of the `while (fread ...)` loop body of `U_BG_TOBASE64` in
`bg.h`: a window `w` of `n = 1`, `2` or `3` input bytes becomes 4 output
characters.  Bytes are unsigned chars, so `in[0] >> 2` is `b0 / 4`,
`(in[0] & 0x03) << 4` is `(b0 % 4) * 16`, `in[1] >> 4` is `b1 / 16`,
`(in[1] & 0x0F) << 2` is `(b1 % 16) * 4`, `in[2] >> 6` is `b2 / 64` and
`in[2] & 0x3F` is `b2 % 64`; the bitwise ors combine disjoint bit ranges and
are therefore additions. -/
def encWindow (w : List Nat) : List Char :=
  let n := w.length
  let b0 := w.getD 0 0
  let b1 := w.getD 1 0
  let b2 := w.getD 2 0
  [ b64char (b0 / 4),
    b64char ((b0 % 4) * 16 + (if 1 < n then b1 else 0) / 16),
    if 1 < n then b64char ((b1 % 16) * 4 + (if 2 < n then b2 else 0) / 64) else '=',
    if 2 < n then b64char (b2 % 64) else '=' ]

/-- The `while (fread(in, 1, 3, f)) > 0` loop of `U_BG_TOBASE64`: the byte
sequence of the file is consumed in windows of up to 3 bytes; each window
emits 4 characters via `encWindow`.  A full read returns 3 bytes as long as
at least 3 remain, then one final partial window of 1 or 2 bytes (or
nothing, when the length is a multiple of 3). -/
def toBase64 : List Nat → List Char
  | [] => []
  | b0 :: b1 :: b2 :: rest => encWindow [b0, b1, b2] ++ toBase64 rest
  | rest => encWindow rest

/-- Index of a character in the Base64 table (inverse of `b64char`). -/
def b64index (c : Char) : Nat := V_BG_BASE64_TABLE.indexOf c

/-- Standard (RFC 4648) Base64 decoding of 4-character windows, used to state
the round-trip property of the encoder: `c2 = '='` means the window carried
one byte, `c3 = '='` means two, otherwise three. -/
def decodeBase64 : List Char → List Nat
  | c0 :: c1 :: c2 :: c3 :: rest =>
    if c2 = '=' then
      [ (b64index c0) * 4 + (b64index c1) / 16 ]
    else if c3 = '=' then
      [ (b64index c0) * 4 + (b64index c1) / 16,
        (b64index c1 % 16) * 16 + (b64index c2) / 4 ]
    else
      [ (b64index c0) * 4 + (b64index c1) / 16,
        (b64index c1 % 16) * 16 + (b64index c2) / 4,
        (b64index c2 % 4) * 64 + b64index c3 ] ++ decodeBase64 rest
  | _ => []

/-- One recorded table-of-contents entry: the parallel arrays
`v_bg_toc_titles`, `v_bg_toc_levels`, `v_bg_toc_numbers` of `bg.h`,
at one index. -/
structure TocEntry where
  title : String
  level : Nat
  label : String
deriving DecidableEq, Repr

/-- One fragment written to the output stream.  `raw` is an arbitrary
`fprintf`ed string; `heading` and `tocItem` are the two structured lines the
claims reason about, kept as constructors so that theorems can talk about
the label carried by each; `Item.render` gives the exact bytes printed. -/
inductive Item where
  | raw : String → Item
  | heading : Nat → String → String → Item
  | tocItem : Nat → String → String → Item
deriving DecidableEq, Repr

/-- Exact text of an output fragment, as printed by the `fprintf` calls of
`BG_H` (line 680 of `bg.h`) and `BG_TOC` (line 740 of `bg.h`). -/
def Item.render : Item → String
  | Item.raw s => s
  | Item.heading lvl label title =>
      "<h" ++ toString lvl ++ " id=\"" ++ label ++ "\">" ++ label ++ " " ++ title ++
        "</h" ++ toString lvl ++ ">\n"
  | Item.tocItem lvl label title =>
      "<li class=\"toc-L" ++ toString lvl ++ "\"><a href=\"#" ++ label ++ "\">" ++
        label ++ " " ++ title ++ "</a></li>\n"

/-- The mutable global state of `bg.h`: the indentation depth `v_bg_depth`
(a signed int), the chapter counter vector `v_bg_chapter` (6 entries), the
TOC store (`v_bg_toc_titles` / `v_bg_toc_levels` / `v_bg_toc_numbers` /
`v_bg_toc_count`, represented as one list of `TocEntry`), and the output
stream contents. -/
structure BGState where
  depth : Int
  chapter : List Nat
  toc : List TocEntry
  out : List Item
deriving DecidableEq, Repr

/-- Result of an operation: `ok` is normal return; `fatal` is an `assert`
failure aborting the process, carrying the diagnostic string and the state
(including output already written) at the moment of the abort. -/
inductive BGResult where
  | ok : BGState → BGResult
  | fatal : String → BGState → BGResult
deriving DecidableEq, Repr

/-- The clamping performed by `U_BG_INDENT`: `if (v_bg_depth < 0) v_bg_depth = 0;`. -/
def clampDepth (d : Int) : Int := if d < 0 then 0 else d

/-- The indentation prefix printed for depth `d`: two spaces per level. -/
def indentOf (d : Int) : String := String.join (List.replicate d.toNat "  ")

/-- Model of `U_BG_INDENT` from `bg.h`: clamps a negative depth to zero (mutating the
stored depth) and emits two spaces per depth level. -/
def U_BG_INDENT (s : BGState) : BGState :=
  { s with depth := clampDepth s.depth,
           out := s.out ++ [Item.raw (indentOf (clampDepth s.depth))] }

/-- Model of `BG_TAG` from `bg.h`: indent, emit the opening tag, increment the depth. -/
def BG_TAG (inside : String) (s : BGState) : BGState :=
  let s1 := U_BG_INDENT s
  { s1 with out := s1.out ++ [Item.raw ("<" ++ inside ++ ">\n")],
            depth := s1.depth + 1 }

/-- Model of `BG_TAG_A` from `bg.h`: like `BG_TAG`, with an attribute string. -/
def BG_TAG_A (inside attrs : String) (s : BGState) : BGState :=
  let s1 := U_BG_INDENT s
  { s1 with out := s1.out ++ [Item.raw ("<" ++ inside ++ " " ++ attrs ++ ">\n")],
            depth := s1.depth + 1 }

/-- Model of `BG_END` from `bg.h`: decrement the depth, then indent (which clamps) and
emit the closing tag. -/
def BG_END (inside : String) (s : BGState) : BGState :=
  let s1 := U_BG_INDENT { s with depth := s.depth - 1 }
  { s1 with out := s1.out ++ [Item.raw ("</" ++ inside ++ ">\n")] }

/-- The increment `v_bg_chapter[level - 1]++` as a list operation: bump the
entry at index `j`. -/
def incAt : Nat → List Nat → List Nat
  | _, [] => []
  | 0, c :: t => (c + 1) :: t
  | j + 1, c :: t => c :: incAt j t

/-- The reset loop `for (i = level; i < 6; i++) v_bg_chapter[i] = 0;` as a
list operation: zero every entry at index `≥ level`. -/
def resetAbove : Nat → List Nat → List Nat
  | _, [] => []
  | 0, _ :: t => 0 :: resetAbove 0 t
  | lv + 1, c :: t => c :: resetAbove lv t

/-- Chapter counter vector after `BG_H(level, _)`: increment position
`level - 1`, then reset every position `≥ level`. -/
def newChapter (level : Nat) (ch : List Nat) : List Nat :=
  resetAbove level (incAt (level - 1) ch)

/-- The label-building loop of `BG_H` (lines 670-675 of `bg.h`):
`sprintf(chapterTmpBuf, "%lu.", v_bg_chapter[i])` concatenated for
`i = 0 .. level-1`. -/
def hLabel (level : Nat) (ch : List Nat) : String :=
  String.join ((ch.take level).map (fun c => toString c ++ "."))

/-- The unconditional part of `BG_H` after its two precondition asserts:
update the chapter vector, indent, and print the heading line carrying the
label both as `id` attribute and as visible prefix. -/
def bgHCore (level : Nat) (title : String) (s : BGState) : BGState :=
  let s1 := U_BG_INDENT { s with chapter := newChapter level s.chapter }
  { s1 with out := s1.out ++
      [Item.heading level (hLabel level (newChapter level s.chapter)) title] }

/-- Model of `BG_H` from `bg.h`.  In source order: assert `1 <= level <= 6`; assert the
no-skip rule `v_bg_chapter[level-2] != 0` for `level >= 2`; update counters
and print the heading line; assert `v_bg_toc_count < V_BG_MAX_TOC`; append
the TOC entry. -/
def BG_H (level : Nat) (title : String) (s : BGState) : BGResult :=
  if ¬ (1 ≤ level ∧ level ≤ 6) then
    BGResult.fatal "The header levels are clamped between 1 and 6!" s
  else if 2 ≤ level ∧ s.chapter.getD (level - 2) 0 = 0 then
    BGResult.fatal "Cannot jump header levels!" s
  else if V_BG_MAX_TOC ≤ (bgHCore level title s).toc.length then
    BGResult.fatal "Too many headers defined! Increase V_BG_MAX_TOC." (bgHCore level title s)
  else
    BGResult.ok { bgHCore level title s with
      toc := (bgHCore level title s).toc ++
        [⟨title, level, hLabel level (newChapter level s.chapter)⟩] }

/-- Emission of one `<li>` line of the TOC listing (the loop body of
`BG_TOC` after its filter test). -/
def emitTocItem (e : TocEntry) (s : BGState) : BGState :=
  let s1 := U_BG_INDENT s
  { s1 with out := s1.out ++ [Item.tocItem e.level e.label e.title] }

/-- The rendering loop of `BG_TOC`: for each entry, skip it when
`depth != 0 && levels[i] > depth`, otherwise indent and print its line. -/
def renderTocItems (depth : Nat) : List TocEntry → BGState → BGState
  | [], s => s
  | e :: rest, s =>
      if depth ≠ 0 ∧ depth < e.level then renderTocItems depth rest s
      else renderTocItems depth rest (emitTocItem e s)

/-- Model of `BG_TOC` from `bg.h`: assert `depth <= 6`; open the `div`; call
`BG_H(1, "Table of Contents")` (which may abort); open the `ul`; loop over
the stored entries with `i + 1 < v_bg_toc_count` (hence over all but the
last stored entry, i.e. `dropLast`); close `ul` and `div`. -/
def BG_TOC (depth : Nat) (s : BGState) : BGResult :=
  if ¬ depth ≤ 6 then
    BGResult.fatal "Depth must be 0 (all headers) or between 1 and 6!" s
  else
    match BG_H 1 "Table of Contents" (BG_TAG_A "div" "class=\"toc\"" s) with
    | BGResult.fatal msg sf => BGResult.fatal msg sf
    | BGResult.ok s2 =>
        BGResult.ok (BG_END "div" (BG_END "ul"
          (renderTocItems depth (BG_TAG "ul" s2).toc.dropLast (BG_TAG "ul" s2))))

/-- Model of `U_BG_TOBASE64` from `bg.h`.  The file system is modelled by the optional
byte contents of the file at the given path: `none` means the file is
missing or unreadable, in which case the `assert(f != NULL)` aborts;
otherwise the whole Base64 stream is written. -/
def U_BG_TOBASE64 (file : Option (List Nat)) (s : BGState) : BGResult :=
  match file with
  | none => BGResult.fatal "File has to exist on the local file system and be readable!" s
  | some bytes => BGResult.ok { s with out := s.out ++ [Item.raw (String.mk (toBase64 bytes))] }

/-- Model of `BG_IMG_INLINE` from `bg.h`: print the opening
`<img src="data:MIME;base64,` fragment, then stream the file as Base64
(which aborts when the file is missing), then print the closing `">`. -/
def BG_IMG_INLINE (mime : String) (file : Option (List Nat)) (s : BGState) : BGResult :=
  match U_BG_TOBASE64 file
      { s with out := s.out ++ [Item.raw ("<img src=\"data:" ++ mime ++ ";base64,")] } with
  | BGResult.fatal msg sf => BGResult.fatal msg sf
  | BGResult.ok s2 => BGResult.ok { s2 with out := s2.out ++ [Item.raw "\">\n"] }

/-- The operations the claims quantify over, for reasoning about arbitrary
call sequences. -/
inductive BGOp where
  | tag : String → BGOp
  | tagA : String → String → BGOp
  | close : String → BGOp
  | h : Nat → String → BGOp
  | toc : Nat → BGOp
deriving DecidableEq, Repr

/-- Run one operation. -/
def runOp : BGOp → BGState → BGResult
  | BGOp.tag i, s => BGResult.ok (BG_TAG i s)
  | BGOp.tagA i a, s => BGResult.ok (BG_TAG_A i a s)
  | BGOp.close i, s => BGResult.ok (BG_END i s)
  | BGOp.h lvl t, s => BG_H lvl t s
  | BGOp.toc d, s => BG_TOC d s

/-- Run a sequence of operations, stopping at the first fatal abort. -/
def runOps : List BGOp → BGState → BGResult
  | [], s => BGResult.ok s
  | op :: rest, s =>
    match runOp op s with
    | BGResult.ok s1 => runOps rest s1
    | BGResult.fatal msg sf => BGResult.fatal msg sf

/-- The state established by `BG_INIT` of `bg.h`: depth 0, all six chapter
counters 0, empty TOC store, fresh output stream. -/
def initState : BGState := ⟨0, [0, 0, 0, 0, 0, 0], [], []⟩

/-- The state carried by a `BGResult`, whether ok or fatal. -/
def BGResult.state : BGResult → BGState
  | BGResult.ok s => s
  | BGResult.fatal _ s => s

/-- Labels of the heading lines present in the output, in emission order
(each is printed as the `id="label"` anchor of its `<hN>` element). -/
def headingLabels : List Item → List String
  | [] => []
  | Item.heading _ label _ :: rest => label :: headingLabels rest
  | _ :: rest => headingLabels rest

/-- The TOC list items present in the output, in emission order, as
(level, label, title) triples (each is printed with `href="#label"`). -/
def tocItemsOf : List Item → List (Nat × String × String)
  | [] => []
  | Item.tocItem lvl label title :: rest => (lvl, label, title) :: tocItemsOf rest
  | _ :: rest => tocItemsOf rest

/-- Apply a state transformer `n` times. -/
def applyN (f : BGState → BGState) : Nat → BGState → BGState
  | 0, s => s
  | n + 1, s => applyN f n (f s)

theorem clampDepth_eq_max (d : Int) : clampDepth d = max d 0 := by
  unfold clampDepth
  split <;> omega

theorem BG_TAG_depth (i : String) (s : BGState) :
    (BG_TAG i s).depth = clampDepth s.depth + 1 := rfl

theorem BG_TAG_A_depth (i a : String) (s : BGState) :
    (BG_TAG_A i a s).depth = clampDepth s.depth + 1 := rfl

theorem BG_END_depth (i : String) (s : BGState) :
    (BG_END i s).depth = clampDepth (s.depth - 1) := rfl

theorem applyN_tag_depth (i : String) (n : Nat) (s : BGState) (h : 0 ≤ s.depth) :
    (applyN (BG_TAG i) n s).depth = s.depth + n := by
  induction n generalizing s with
  | zero => simp [applyN]
  | succ m ih =>
      have h1 : (BG_TAG i s).depth = s.depth + 1 := by
        rw [BG_TAG_depth, clampDepth_eq_max]; omega
      have := ih (BG_TAG i s) (by omega)
      simp only [applyN, this, h1]
      omega

theorem applyN_end_depth (j : String) (n : Nat) (s : BGState) (h : 0 ≤ s.depth) :
    (applyN (BG_END j) n s).depth = max (s.depth - n) 0 := by
  induction n generalizing s with
  | zero => simp [applyN]; omega
  | succ m ih =>
      have h1 : (BG_END j s).depth = max (s.depth - 1) 0 := by
        rw [BG_END_depth, clampDepth_eq_max]
      have := ih (BG_END j s) (by omega)
      simp only [applyN, this, h1]
      omega

/-- C4: the indentation prefix emitted before any line is computed from a
depth clamped at zero (`U_BG_INDENT` both clamps the stored depth and prints
from the clamped value); after `N` opens (`BG_TAG`, or `BG_TAG_A`, which has
the same depth effect) followed by `N` closes (`BG_END`) the depth returns
to its pre-sequence value; after `N` opens and `N + 1` closes starting from
depth zero the depth is clamped at zero rather than going negative, and the
indentation prefix of the next emitted line is the empty string. -/
theorem C4_depth_clamped :
    (∀ s : BGState, (U_BG_INDENT s).depth = clampDepth s.depth ∧
      (U_BG_INDENT s).out = s.out ++ [Item.raw (indentOf (clampDepth s.depth))]) ∧
    (∀ (s : BGState) (N : Nat) (i j : String), 0 ≤ s.depth →
      (applyN (BG_END j) N (applyN (BG_TAG i) N s)).depth = s.depth) ∧
    (∀ (s : BGState) (N : Nat) (i j : String), s.depth = 0 →
      (applyN (BG_END j) (N + 1) (applyN (BG_TAG i) N s)).depth = 0 ∧
      indentOf (clampDepth (applyN (BG_END j) (N + 1) (applyN (BG_TAG i) N s)).depth) = "") ∧
    (∀ (s : BGState) (i a : String), (BG_TAG_A i a s).depth = (BG_TAG i s).depth) := by
  refine ⟨fun s => ⟨rfl, rfl⟩, ?_, ?_, fun s i a => rfl⟩
  · intro s N i j h
    rw [applyN_end_depth j N _ (by rw [applyN_tag_depth i N s h]; omega),
        applyN_tag_depth i N s h]
    omega
  · intro s N i j h
    have hd : (applyN (BG_END j) (N + 1) (applyN (BG_TAG i) N s)).depth = 0 := by
      rw [applyN_end_depth j (N + 1) _ (by rw [applyN_tag_depth i N s (by omega)]; omega),
          applyN_tag_depth i N s (by omega)]
      omega
    refine ⟨hd, ?_⟩
    rw [hd]
    rfl

/-- Witness for C4 at a concrete balanced sequence. -/
theorem C4_witness :
    (applyN (BG_END "div") 2 (applyN (BG_TAG "div") 2 initState)).depth = initState.depth :=
  C4_depth_clamped.2.1 initState 2 "div" "div" (by decide)

/-- C7: a heading level outside `1..6` fails fatally at the very first
assert of `BG_H`, returning the state completely unchanged: no TOC entry is
appended, the chapter counter vector is untouched, and nothing has been
written to the output. -/
theorem C7_level_out_of_range (s : BGState) (level : Nat) (title : String)
    (h : ¬ (1 ≤ level ∧ level ≤ 6)) :
    BG_H level title s =
      BGResult.fatal "The header levels are clamped between 1 and 6!" s := by
  unfold BG_H
  rw [if_pos h]

/-- Witness for C7 at levels 0 and 7. -/
theorem C7_witness :
    BG_H 0 "X" initState =
      BGResult.fatal "The header levels are clamped between 1 and 6!" initState ∧
    BG_H 7 "X" initState =
      BGResult.fatal "The header levels are clamped between 1 and 6!" initState :=
  ⟨C7_level_out_of_range initState 0 "X" (by decide),
   C7_level_out_of_range initState 7 "X" (by decide)⟩

theorem bgHCore_toc (level : Nat) (title : String) (s : BGState) :
    (bgHCore level title s).toc = s.toc := rfl

theorem bgHCore_chapter (level : Nat) (title : String) (s : BGState) :
    (bgHCore level title s).chapter = newChapter level s.chapter := rfl

theorem bgHCore_out (level : Nat) (title : String) (s : BGState) :
    (bgHCore level title s).out = s.out ++
      [Item.raw (indentOf (clampDepth s.depth)),
       Item.heading level (hLabel level (newChapter level s.chapter)) title] := by
  simp [bgHCore, U_BG_INDENT]

/-- C6: under the strict no-skip policy of `BG_H`, a call at `level ≥ 2`
whose parent counter `v_bg_chapter[level-2]` is zero aborts fatally with the
"Cannot jump header levels!" diagnostic, leaving the state unchanged; in
particular a level-3 heading directly after a level-1 heading fails
fatally. -/
theorem C6_no_skip :
    (∀ (s : BGState) (level : Nat) (title : String),
      2 ≤ level → level ≤ 6 → s.chapter.getD (level - 2) 0 = 0 →
      BG_H level title s = BGResult.fatal "Cannot jump header levels!" s) ∧
    (∃ s1, BG_H 1 "A" initState = BGResult.ok s1 ∧
      BG_H 3 "B" s1 = BGResult.fatal "Cannot jump header levels!" s1) := by
  constructor
  · intro s level title h2 h6 hz
    unfold BG_H
    rw [if_neg (not_not_intro ⟨by omega, h6⟩), if_pos ⟨h2, hz⟩]
  · exact ⟨_, rfl, by decide⟩

/-- Witness for C6 with a concrete skipped level. -/
theorem C6_witness :
    BG_H 3 "B" ⟨0, [1, 0, 0, 0, 0, 0], [], []⟩ =
      BGResult.fatal "Cannot jump header levels!" ⟨0, [1, 0, 0, 0, 0, 0], [], []⟩ :=
  C6_no_skip.1 ⟨0, [1, 0, 0, 0, 0, 0], [], []⟩ 3 "B" (by decide) (by decide) (by decide)

/-- C5: the TOC store never exceeds its fixed capacity `V_BG_MAX_TOC = 100`
(every successful `BG_H` leaves at most 100 entries), and a heading call
finding the store full aborts fatally inside that very call with the
capacity diagnostic. -/
theorem C5_capacity :
    V_BG_MAX_TOC = 100 ∧
    (∀ (s : BGState) (level : Nat) (title : String) (s1 : BGState),
      BG_H level title s = BGResult.ok s1 → s1.toc.length ≤ V_BG_MAX_TOC) ∧
    (∀ (s : BGState) (level : Nat) (title : String),
      1 ≤ level → level ≤ 6 → ¬ (2 ≤ level ∧ s.chapter.getD (level - 2) 0 = 0) →
      V_BG_MAX_TOC ≤ s.toc.length →
      BG_H level title s =
        BGResult.fatal "Too many headers defined! Increase V_BG_MAX_TOC."
          (bgHCore level title s)) := by
  refine ⟨rfl, ?_, ?_⟩
  · intro s level title s1 h
    unfold BG_H at h
    split_ifs at h with h1 h2 h3
    rw [BGResult.ok.injEq] at h
    subst h
    simp only [bgHCore_toc, List.length_append, List.length_cons, List.length_nil] at h3 ⊢
    omega
  · intro s level title h1 h6 hns hcap
    unfold BG_H
    rw [if_neg (not_not_intro ⟨h1, h6⟩), if_neg hns, if_pos (by rwa [bgHCore_toc])]

/-- A state whose TOC store is exactly full. -/
def fullTocState : BGState :=
  ⟨0, [1, 0, 0, 0, 0, 0], List.replicate 100 ⟨"t", 1, "1."⟩, []⟩

/-- Witness for C5 at a full store. -/
theorem C5_witness :
    BG_H 1 "T" fullTocState =
      BGResult.fatal "Too many headers defined! Increase V_BG_MAX_TOC."
        (bgHCore 1 "T" fullTocState) :=
  C5_capacity.2.2 fullTocState 1 "T" (by decide) (by decide) (by decide) (by decide)

theorem b64index_b64char : ∀ n, n < 64 → b64index (b64char n) = n := by decide

theorem b64char_ne_pad : ∀ n, n < 64 → b64char n ≠ '=' := by decide

theorem decode_toBase64 : ∀ bs : List Nat, (∀ b ∈ bs, b < 256) →
    decodeBase64 (toBase64 bs) = bs
  | [], _ => rfl
  | [b0], h => by
      have hb0 : b0 < 256 := h b0 (by simp)
      have h1 : b0 / 4 < 64 := by omega
      have h2 : (b0 % 4) * 16 < 64 := by omega
      show decodeBase64 (encWindow [b0]) = [b0]
      have he : encWindow [b0] = [b64char (b0 / 4), b64char ((b0 % 4) * 16), '=', '='] := by
        norm_num [encWindow]
      rw [he]
      simp only [decodeBase64, if_pos rfl]
      rw [b64index_b64char _ h1, b64index_b64char _ h2]
      simp only [if_true]
      rw [List.cons.injEq]
      exact ⟨by omega, rfl⟩
  | [b0, b1], h => by
      have hb0 : b0 < 256 := h b0 (by simp)
      have hb1 : b1 < 256 := h b1 (by simp)
      have h1 : b0 / 4 < 64 := by omega
      have h2 : (b0 % 4) * 16 + b1 / 16 < 64 := by omega
      have h3 : (b1 % 16) * 4 < 64 := by omega
      show decodeBase64 (encWindow [b0, b1]) = [b0, b1]
      have he : encWindow [b0, b1] =
          [b64char (b0 / 4), b64char ((b0 % 4) * 16 + b1 / 16), b64char ((b1 % 16) * 4), '='] := by
        norm_num [encWindow]
      rw [he]
      simp only [decodeBase64, if_neg (b64char_ne_pad _ h3), if_pos rfl]
      rw [b64index_b64char _ h1, b64index_b64char _ h2, b64index_b64char _ h3]
      simp only [if_true]
      rw [List.cons.injEq, List.cons.injEq]
      refine ⟨by omega, by omega, rfl⟩
  | b0 :: b1 :: b2 :: rest, h => by
      have hb0 : b0 < 256 := h b0 (by simp)
      have hb1 : b1 < 256 := h b1 (by simp)
      have hb2 : b2 < 256 := h b2 (by simp)
      have ih := decode_toBase64 rest (fun b hb => h b (by simp [hb]))
      have h1 : b0 / 4 < 64 := by omega
      have h2 : (b0 % 4) * 16 + b1 / 16 < 64 := by omega
      have h3 : (b1 % 16) * 4 + b2 / 64 < 64 := by omega
      have h4 : b2 % 64 < 64 := by omega
      show decodeBase64 (encWindow [b0, b1, b2] ++ toBase64 rest) = b0 :: b1 :: b2 :: rest
      have he : encWindow [b0, b1, b2] =
          [b64char (b0 / 4), b64char ((b0 % 4) * 16 + b1 / 16),
           b64char ((b1 % 16) * 4 + b2 / 64), b64char (b2 % 64)] := by
        norm_num [encWindow]
      rw [he, List.cons_append, List.cons_append, List.cons_append, List.cons_append,
          List.nil_append]
      simp only [decodeBase64, if_neg (b64char_ne_pad _ h3), if_neg (b64char_ne_pad _ h4)]
      rw [b64index_b64char _ h1, b64index_b64char _ h2, b64index_b64char _ h3,
          b64index_b64char _ h4]
      rw [ih]
      simp only [List.cons_append, List.nil_append, List.cons.injEq]
      refine ⟨by omega, by omega, by omega, trivial⟩

theorem encWindow_length (w : List Nat) : (encWindow w).length = 4 := rfl

theorem toBase64_length : ∀ bs : List Nat,
    (toBase64 bs).length = 4 * ((bs.length + 2) / 3)
  | [] => rfl
  | [b] => by
      show (encWindow [b]).length = 4 * (([b].length + 2) / 3)
      rw [encWindow_length]
      simp
  | [b, b'] => by
      show (encWindow [b, b']).length = 4 * (([b, b'].length + 2) / 3)
      rw [encWindow_length]
      simp
  | b0 :: b1 :: b2 :: rest => by
      have ih := toBase64_length rest
      show (encWindow [b0, b1, b2] ++ toBase64 rest).length = _
      rw [List.length_append, encWindow_length, ih]
      simp only [List.length_cons]
      omega

theorem count_pad_encWindow_three (b0 b1 b2 : Nat) (h0 : b0 < 256) (h1 : b1 < 256)
    (h2 : b2 < 256) : (encWindow [b0, b1, b2]).count '=' = 0 := by
  have g1 : b0 / 4 < 64 := by omega
  have g2 : (b0 % 4) * 16 + b1 / 16 < 64 := by omega
  have g3 : (b1 % 16) * 4 + b2 / 64 < 64 := by omega
  have g4 : b2 % 64 < 64 := by omega
  have he : encWindow [b0, b1, b2] =
      [b64char (b0 / 4), b64char ((b0 % 4) * 16 + b1 / 16),
       b64char ((b1 % 16) * 4 + b2 / 64), b64char (b2 % 64)] := by
    norm_num [encWindow]
  rw [he]
  simp [List.count_cons, (b64char_ne_pad _ g1), (b64char_ne_pad _ g2),
    (b64char_ne_pad _ g3), (b64char_ne_pad _ g4)]

theorem toBase64_count_pad : ∀ bs : List Nat, (∀ b ∈ bs, b < 256) →
    (toBase64 bs).count '=' = (3 - bs.length % 3) % 3
  | [], _ => rfl
  | [b0], h => by
      have hb0 : b0 < 256 := h b0 (by simp)
      have g1 : b0 / 4 < 64 := by omega
      have g2 : (b0 % 4) * 16 < 64 := by omega
      show (encWindow [b0]).count '=' = _
      have he : encWindow [b0] = [b64char (b0 / 4), b64char ((b0 % 4) * 16), '=', '='] := by
        norm_num [encWindow]
      rw [he]
      simp [List.count_cons, (b64char_ne_pad _ g1), (b64char_ne_pad _ g2)]
  | [b0, b1], h => by
      have hb0 : b0 < 256 := h b0 (by simp)
      have hb1 : b1 < 256 := h b1 (by simp)
      have g1 : b0 / 4 < 64 := by omega
      have g2 : (b0 % 4) * 16 + b1 / 16 < 64 := by omega
      have g3 : (b1 % 16) * 4 < 64 := by omega
      show (encWindow [b0, b1]).count '=' = _
      have he : encWindow [b0, b1] =
          [b64char (b0 / 4), b64char ((b0 % 4) * 16 + b1 / 16), b64char ((b1 % 16) * 4), '='] := by
        norm_num [encWindow]
      rw [he]
      simp [List.count_cons, (b64char_ne_pad _ g1), (b64char_ne_pad _ g2),
        (b64char_ne_pad _ g3)]
  | b0 :: b1 :: b2 :: rest, h => by
      have ih := toBase64_count_pad rest (fun b hb => h b (by simp [hb]))
      show (encWindow [b0, b1, b2] ++ toBase64 rest).count '=' = _
      rw [List.count_append, ih,
        count_pad_encWindow_three b0 b1 b2 (h b0 (by simp)) (h b1 (by simp)) (h b2 (by simp))]
      simp only [List.length_cons]
      omega

/-- C2: for every finite byte sequence, the Base64 stream produced by
`U_BG_TOBASE64` decodes back (by standard Base64 decoding) to exactly the
original bytes, its length is 4 characters per 3-byte input window
(`4 * ceil(length / 3)`), and it ends with `(3 - length % 3) % 3` padding
characters `'='` when `length % 3 != 0` and none otherwise. -/
theorem C2_base64_roundtrip :
    ∀ bs : List Nat, (∀ b ∈ bs, b < 256) →
      decodeBase64 (toBase64 bs) = bs ∧
      (toBase64 bs).length = 4 * ((bs.length + 2) / 3) ∧
      (toBase64 bs).count '=' =
        (if bs.length % 3 = 0 then 0 else (3 - bs.length % 3) % 3) :=
  fun bs h => ⟨decode_toBase64 bs h, toBase64_length bs, by
    rw [toBase64_count_pad bs h]
    split <;> omega⟩

/-- Witness for C2 at a concrete 4-byte sequence (remainder class 1). -/
theorem C2_witness :
    decodeBase64 (toBase64 [10, 200, 33, 7]) = [10, 200, 33, 7] ∧
    (toBase64 [10, 200, 33, 7]).length = 4 * ((([10, 200, 33, 7] : List Nat).length + 2) / 3) ∧
    (toBase64 [10, 200, 33, 7]).count '=' =
      (if ([10, 200, 33, 7] : List Nat).length % 3 = 0 then 0
       else (3 - ([10, 200, 33, 7] : List Nat).length % 3) % 3) :=
  C2_base64_roundtrip [10, 200, 33, 7] (by decide)

theorem getD_incAt_self (j : Nat) (l : List Nat) (h : j < l.length) :
    (incAt j l).getD j 0 = l.getD j 0 + 1 := by
  induction l generalizing j with
  | nil => simp at h
  | cons c t ih =>
      cases j with
      | zero => simp [incAt]
      | succ m =>
          simp only [incAt, List.getD_cons_succ]
          exact ih m (by simpa using h)

theorem getD_incAt_ne (j i : Nat) (l : List Nat) (h : i ≠ j) :
    (incAt j l).getD i 0 = l.getD i 0 := by
  induction l generalizing j i with
  | nil => simp [incAt]
  | cons c t ih =>
      cases j with
      | zero =>
          cases i with
          | zero => omega
          | succ m => simp [incAt]
      | succ n =>
          cases i with
          | zero => simp [incAt]
          | succ m =>
              simp only [incAt, List.getD_cons_succ]
              exact ih n m (by omega)

theorem getD_resetAbove_ge (lv i : Nat) (l : List Nat) (h : lv ≤ i) :
    (resetAbove lv l).getD i 0 = 0 := by
  induction l generalizing lv i with
  | nil => simp [resetAbove]
  | cons c t ih =>
      cases lv with
      | zero =>
          cases i with
          | zero => simp [resetAbove]
          | succ m =>
              simp only [resetAbove, List.getD_cons_succ]
              exact ih 0 m (Nat.zero_le m)
      | succ n =>
          cases i with
          | zero => omega
          | succ m =>
              simp only [resetAbove, List.getD_cons_succ]
              exact ih n m (by omega)

theorem getD_resetAbove_lt (lv i : Nat) (l : List Nat) (h : i < lv) :
    (resetAbove lv l).getD i 0 = l.getD i 0 := by
  induction l generalizing lv i with
  | nil => simp [resetAbove]
  | cons c t ih =>
      cases lv with
      | zero => omega
      | succ n =>
          cases i with
          | zero => simp [resetAbove]
          | succ m =>
              simp only [resetAbove, List.getD_cons_succ]
              exact ih n m (by omega)

theorem BG_H_ok (level : Nat) (title : String) (s : BGState)
    (h1 : 1 ≤ level) (h6 : level ≤ 6)
    (hns : ¬ (2 ≤ level ∧ s.chapter.getD (level - 2) 0 = 0))
    (hcap : s.toc.length < V_BG_MAX_TOC) :
    BG_H level title s = BGResult.ok { bgHCore level title s with
      toc := s.toc ++ [⟨title, level, hLabel level (newChapter level s.chapter)⟩] } := by
  unfold BG_H
  rw [if_neg (not_not_intro ⟨h1, h6⟩), if_neg hns,
      if_neg (by rw [bgHCore_toc]; omega)]
  rfl

/-- C1: a valid `BG_H(level, title)` call (level in range, no skipped level,
store not full) increments the chapter counter at position `level`, resets
all counters at strictly greater positions to 0, leaves the counters at
lower positions unchanged, and both records in the TOC store and emits in
the heading line a label that is the concatenation, over positions
`0 .. level-1`, of the counter value followed by `"."`; in particular the
sequence `H(1,"A")`, `H(2,"B")`, `H(2,"C")`, `H(1,"D")` from the initial
all-zero state records the labels `"1."`, `"1.1."`, `"1.2."`, `"2."`. -/
theorem C1_heading_effect :
    (∀ (s : BGState) (level : Nat) (title : String),
      s.chapter.length = 6 → 1 ≤ level → level ≤ 6 →
      ¬ (2 ≤ level ∧ s.chapter.getD (level - 2) 0 = 0) →
      s.toc.length < V_BG_MAX_TOC →
      ∃ s1, BG_H level title s = BGResult.ok s1 ∧
        s1.chapter.getD (level - 1) 0 = s.chapter.getD (level - 1) 0 + 1 ∧
        (∀ i, level ≤ i → i < 6 → s1.chapter.getD i 0 = 0) ∧
        (∀ i, i < level - 1 → s1.chapter.getD i 0 = s.chapter.getD i 0) ∧
        s1.toc = s.toc ++
          [⟨title, level,
            String.join ((s1.chapter.take level).map (fun c => toString c ++ "."))⟩] ∧
        s1.out = s.out ++
          [Item.raw (indentOf (clampDepth s.depth)),
           Item.heading level
             (String.join ((s1.chapter.take level).map (fun c => toString c ++ "."))) title]) ∧
    (∃ t, runOps [BGOp.h 1 "A", BGOp.h 2 "B", BGOp.h 2 "C", BGOp.h 1 "D"] initState =
        BGResult.ok t ∧ t.toc.map TocEntry.label = ["1.", "1.1.", "1.2.", "2."]) := by
  constructor
  · intro s level title hlen h1 h6 hns hcap
    refine ⟨_, BG_H_ok level title s h1 h6 hns hcap, ?_, ?_, ?_, rfl, ?_⟩
    · show (newChapter level s.chapter).getD (level - 1) 0 = _
      unfold newChapter
      rw [getD_resetAbove_lt level (level - 1) _ (by omega),
          getD_incAt_self (level - 1) s.chapter (by omega)]
    · intro i hi hi6
      show (newChapter level s.chapter).getD i 0 = 0
      unfold newChapter
      exact getD_resetAbove_ge level i _ hi
    · intro i hi
      show (newChapter level s.chapter).getD i 0 = s.chapter.getD i 0
      unfold newChapter
      rw [getD_resetAbove_lt level i _ (by omega), getD_incAt_ne (level - 1) i _ (by omega)]
    · exact bgHCore_out level title s
  · exact ⟨_, rfl, by decide⟩

/-- Witness for C1 at a level-1 heading from the initial state. -/
theorem C1_witness :
    (BG_H 1 "A" initState).state.chapter.getD 0 0 =
        initState.chapter.getD 0 0 + 1 ∧
    (BG_H 1 "A" initState).state.chapter.getD 3 0 = 0 ∧
    (BG_H 1 "A" initState).state.toc = initState.toc ++
      [⟨"A", 1, String.join (((BG_H 1 "A" initState).state.chapter.take 1).map
        (fun c => toString c ++ "."))⟩] := by
  obtain ⟨s1, he, hinc, hzero, hlow, htoc, hout⟩ :=
    C1_heading_effect.1 initState 1 "A" (by decide) (by decide) (by decide) (by decide)
      (by decide)
  rw [he]
  exact ⟨hinc, hzero 3 (by decide) (by decide), htoc⟩

theorem tocItemsOf_append (a b : List Item) :
    tocItemsOf (a ++ b) = tocItemsOf a ++ tocItemsOf b := by
  induction a with
  | nil => simp [tocItemsOf]
  | cons x t ih => cases x <;> simp [tocItemsOf, ih]

theorem headingLabels_append (a b : List Item) :
    headingLabels (a ++ b) = headingLabels a ++ headingLabels b := by
  induction a with
  | nil => simp [headingLabels]
  | cons x t ih => cases x <;> simp [headingLabels, ih]

theorem BG_TAG_toc (i : String) (s : BGState) : (BG_TAG i s).toc = s.toc := rfl

theorem BG_TAG_A_toc (i a : String) (s : BGState) : (BG_TAG_A i a s).toc = s.toc := rfl

theorem BG_END_toc (i : String) (s : BGState) : (BG_END i s).toc = s.toc := rfl

theorem BG_TAG_chapter (i : String) (s : BGState) : (BG_TAG i s).chapter = s.chapter := rfl

theorem BG_TAG_A_chapter (i a : String) (s : BGState) :
    (BG_TAG_A i a s).chapter = s.chapter := rfl

theorem BG_END_chapter (i : String) (s : BGState) : (BG_END i s).chapter = s.chapter := rfl

theorem tocItemsOf_U_BG_INDENT (s : BGState) :
    tocItemsOf (U_BG_INDENT s).out = tocItemsOf s.out := by
  simp [U_BG_INDENT, tocItemsOf_append, tocItemsOf]

theorem tocItemsOf_BG_TAG (i : String) (s : BGState) :
    tocItemsOf (BG_TAG i s).out = tocItemsOf s.out := by
  simp [BG_TAG, U_BG_INDENT, tocItemsOf_append, tocItemsOf]

theorem tocItemsOf_BG_TAG_A (i a : String) (s : BGState) :
    tocItemsOf (BG_TAG_A i a s).out = tocItemsOf s.out := by
  simp [BG_TAG_A, U_BG_INDENT, tocItemsOf_append, tocItemsOf]

theorem tocItemsOf_BG_END (i : String) (s : BGState) :
    tocItemsOf (BG_END i s).out = tocItemsOf s.out := by
  simp [BG_END, U_BG_INDENT, tocItemsOf_append, tocItemsOf]

theorem tocItemsOf_bgHCore (level : Nat) (title : String) (s : BGState) :
    tocItemsOf (bgHCore level title s).out = tocItemsOf s.out := by
  rw [bgHCore_out]
  simp [tocItemsOf_append, tocItemsOf]

theorem tocItemsOf_emitTocItem (e : TocEntry) (s : BGState) :
    tocItemsOf (emitTocItem e s).out = tocItemsOf s.out ++ [(e.level, e.label, e.title)] := by
  simp [emitTocItem, U_BG_INDENT, tocItemsOf_append, tocItemsOf]

theorem renderTocItems_toc (d : Nat) (l : List TocEntry) (s : BGState) :
    (renderTocItems d l s).toc = s.toc := by
  induction l generalizing s with
  | nil => rfl
  | cons e rest ih =>
      unfold renderTocItems
      split
      · exact ih s
      · exact ih (emitTocItem e s)

theorem renderTocItems_chapter (d : Nat) (l : List TocEntry) (s : BGState) :
    (renderTocItems d l s).chapter = s.chapter := by
  induction l generalizing s with
  | nil => rfl
  | cons e rest ih =>
      unfold renderTocItems
      split
      · exact ih s
      · exact ih (emitTocItem e s)

theorem tocItemsOf_renderTocItems (d : Nat) (l : List TocEntry) (s : BGState) :
    tocItemsOf (renderTocItems d l s).out =
      tocItemsOf s.out ++
        (l.filter (fun e => decide (d = 0 ∨ e.level ≤ d))).map
          (fun e => (e.level, e.label, e.title)) := by
  induction l generalizing s with
  | nil => simp [renderTocItems]
  | cons e rest ih =>
      unfold renderTocItems
      by_cases hc : d ≠ 0 ∧ d < e.level
      · rw [if_pos hc, ih s, List.filter_cons,
          if_neg (by simp only [decide_eq_true_eq]; omega)]
      · rw [if_neg hc, ih (emitTocItem e s), tocItemsOf_emitTocItem, List.filter_cons,
          if_pos (by simp only [decide_eq_true_eq]; omega)]
        simp

/-- C3: rendering the table of contents with `BG_TOC(D)` for `D` in `0..6`
emits exactly the entries recorded before the call whose level is `≤ D`, in
original insertion order, with `D = 0` acting as a sentinel meaning no
filtering (all previously recorded entries are listed). -/
theorem C3_toc_filter (s : BGState) (D : Nat) (hD : D ≤ 6)
    (hcap : s.toc.length < V_BG_MAX_TOC) :
    ∃ s1, BG_TOC D s = BGResult.ok s1 ∧
      tocItemsOf s1.out = tocItemsOf s.out ++
        (s.toc.filter (fun e => decide (D = 0 ∨ e.level ≤ D))).map
          (fun e => (e.level, e.label, e.title)) := by
  unfold BG_TOC
  rw [if_neg (not_not_intro hD),
      BG_H_ok 1 "Table of Contents" (BG_TAG_A "div" "class=\"toc\"" s) (by omega) (by omega)
        (by simp) (by rw [BG_TAG_A_toc]; exact hcap)]
  refine ⟨_, rfl, ?_⟩
  rw [tocItemsOf_BG_END, tocItemsOf_BG_END, tocItemsOf_renderTocItems, tocItemsOf_BG_TAG]
  have htoc : (BG_TAG "ul" { bgHCore 1 "Table of Contents" (BG_TAG_A "div" "class=\"toc\"" s) with
      toc := (BG_TAG_A "div" "class=\"toc\"" s).toc ++
        [⟨"Table of Contents", 1,
          hLabel 1 (newChapter 1 (BG_TAG_A "div" "class=\"toc\"" s).chapter)⟩] }).toc.dropLast
      = s.toc := by
    rw [BG_TAG_toc]
    simp [BG_TAG_A_toc]
  rw [htoc]
  have hout : tocItemsOf ({ bgHCore 1 "Table of Contents" (BG_TAG_A "div" "class=\"toc\"" s) with
      toc := (BG_TAG_A "div" "class=\"toc\"" s).toc ++
        [⟨"Table of Contents", 1,
          hLabel 1 (newChapter 1 (BG_TAG_A "div" "class=\"toc\"" s).chapter)⟩] } : BGState).out
      = tocItemsOf s.out := by
    show tocItemsOf (bgHCore 1 "Table of Contents" (BG_TAG_A "div" "class=\"toc\"" s)).out = _
    rw [tocItemsOf_bgHCore, tocItemsOf_BG_TAG_A]
  rw [hout]

/-- Witness for C3 at a two-entry store and depth filter 1. -/
theorem C3_witness :
    tocItemsOf (BG_TOC 1
        ⟨0, [1, 1, 0, 0, 0, 0], [⟨"A", 1, "1."⟩, ⟨"B", 2, "1.1."⟩], []⟩).state.out =
      tocItemsOf (⟨0, [1, 1, 0, 0, 0, 0], [⟨"A", 1, "1."⟩, ⟨"B", 2, "1.1."⟩], []⟩ :
        BGState).out ++
      (([⟨"A", 1, "1."⟩, ⟨"B", 2, "1.1."⟩] : List TocEntry).filter
        (fun e => decide (1 = 0 ∨ e.level ≤ 1))).map
          (fun e => (e.level, e.label, e.title)) := by
  obtain ⟨s1, he, hrend⟩ :=
    C3_toc_filter ⟨0, [1, 1, 0, 0, 0, 0], [⟨"A", 1, "1."⟩, ⟨"B", 2, "1.1."⟩], []⟩ 1
      (by decide) (by decide)
  rw [he]
  exact hrend

/-- Counterexample for C9 as stated: in a session where `BG_TOC` is NOT the
last heading-recording call (a further heading "Z" is recorded after it, and
succeeds), the rendered list of that `BG_TOC` call still omitted exactly the
call's own self-heading: the store at the call held `[A, Table of Contents]`
with the self-heading last, and the rendered list was `[A]` alone.  This
contradicts the claim that the omitted last stored entry equals the TOC's
own self-heading only when `BG_TOC` is called after all other headings. -/
theorem C9_counterexample :
    (runOps [BGOp.h 1 "A", BGOp.toc 0, BGOp.h 1 "Z"] initState).state.toc.map
        TocEntry.title = ["A", "Table of Contents", "Z"] ∧
    (runOps [BGOp.h 1 "A", BGOp.toc 0] initState).state.toc.getLast? =
      some ⟨"Table of Contents", 1, "2."⟩ ∧
    tocItemsOf (runOps [BGOp.h 1 "A", BGOp.toc 0] initState).state.out =
      [(1, "1.", "A")] := by
  decide

/-- C9 (amended): every call `BG_TOC(D)` with `D ≤ 6` and a non-full store
is itself a heading-recording operation: it increments the level-1 chapter
counter, resets the counters for levels 2..6 to zero, appends one new entry
(its own level-1 "Table of Contents" heading) to the TOC store, consuming
one unit of its capacity; the rendered list omits exactly the last stored
entry, which is always the TOC's own self-heading (appended by the call
itself immediately before rendering), regardless of whether further
headings follow. -/
theorem C9_toc_self_heading (s : BGState) (D : Nat) (hch : s.chapter.length = 6)
    (hD : D ≤ 6) (hcap : s.toc.length < V_BG_MAX_TOC) :
    ∃ s1, BG_TOC D s = BGResult.ok s1 ∧
      s1.chapter.getD 0 0 = s.chapter.getD 0 0 + 1 ∧
      (∀ i, 1 ≤ i → i < 6 → s1.chapter.getD i 0 = 0) ∧
      s1.toc = s.toc ++ [⟨"Table of Contents", 1, hLabel 1 (newChapter 1 s.chapter)⟩] ∧
      s1.toc.length = s.toc.length + 1 ∧
      tocItemsOf s1.out = tocItemsOf s.out ++
        (s1.toc.dropLast.filter (fun e => decide (D = 0 ∨ e.level ≤ D))).map
          (fun e => (e.level, e.label, e.title)) := by
  unfold BG_TOC
  rw [if_neg (not_not_intro hD)]
  obtain ⟨sH, hsH, hchap, htoc, hout⟩ :
      ∃ sH, BG_H 1 "Table of Contents" (BG_TAG_A "div" "class=\"toc\"" s) =
          BGResult.ok sH ∧
        sH.chapter = newChapter 1 s.chapter ∧
        sH.toc = s.toc ++ [⟨"Table of Contents", 1, hLabel 1 (newChapter 1 s.chapter)⟩] ∧
        tocItemsOf sH.out = tocItemsOf s.out := by
    refine ⟨_, BG_H_ok 1 "Table of Contents" (BG_TAG_A "div" "class=\"toc\"" s)
      (by omega) (by omega) (by simp) (by rw [BG_TAG_A_toc]; exact hcap), rfl, rfl, ?_⟩
    show tocItemsOf (bgHCore 1 "Table of Contents" (BG_TAG_A "div" "class=\"toc\"" s)).out = _
    rw [tocItemsOf_bgHCore, tocItemsOf_BG_TAG_A]
  rw [hsH]
  refine ⟨_, rfl, ?_, ?_, ?_, ?_, ?_⟩
  · rw [BG_END_chapter, BG_END_chapter, renderTocItems_chapter, BG_TAG_chapter, hchap]
    unfold newChapter
    rw [getD_resetAbove_lt 1 0 _ (by omega), getD_incAt_self 0 s.chapter (by omega)]
  · intro i hi hi6
    rw [BG_END_chapter, BG_END_chapter, renderTocItems_chapter, BG_TAG_chapter, hchap]
    unfold newChapter
    exact getD_resetAbove_ge 1 i _ hi
  · rw [BG_END_toc, BG_END_toc, renderTocItems_toc, BG_TAG_toc, htoc]
  · rw [BG_END_toc, BG_END_toc, renderTocItems_toc, BG_TAG_toc, htoc]
    simp
  · rw [BG_END_toc, BG_END_toc, renderTocItems_toc, BG_TAG_toc, htoc,
        tocItemsOf_BG_END, tocItemsOf_BG_END, tocItemsOf_renderTocItems,
        tocItemsOf_BG_TAG, hout]

/-- Witness for the amended C9 at a one-entry store. -/
theorem C9_witness :
    (BG_TOC 0 ⟨0, [1, 0, 0, 0, 0, 0], [⟨"A", 1, "1."⟩], []⟩).state.chapter.getD 0 0 =
      (⟨0, [1, 0, 0, 0, 0, 0], [⟨"A", 1, "1."⟩], []⟩ : BGState).chapter.getD 0 0 + 1 ∧
    (BG_TOC 0 ⟨0, [1, 0, 0, 0, 0, 0], [⟨"A", 1, "1."⟩], []⟩).state.chapter.getD 2 0 = 0 ∧
    (BG_TOC 0 ⟨0, [1, 0, 0, 0, 0, 0], [⟨"A", 1, "1."⟩], []⟩).state.toc =
      (⟨0, [1, 0, 0, 0, 0, 0], [⟨"A", 1, "1."⟩], []⟩ : BGState).toc ++
        [⟨"Table of Contents", 1,
          hLabel 1 (newChapter 1 (⟨0, [1, 0, 0, 0, 0, 0], [⟨"A", 1, "1."⟩], []⟩ :
            BGState).chapter)⟩] ∧
    tocItemsOf (BG_TOC 0 ⟨0, [1, 0, 0, 0, 0, 0], [⟨"A", 1, "1."⟩], []⟩).state.out =
      tocItemsOf (⟨0, [1, 0, 0, 0, 0, 0], [⟨"A", 1, "1."⟩], []⟩ : BGState).out ++
      ((BG_TOC 0 ⟨0, [1, 0, 0, 0, 0, 0], [⟨"A", 1, "1."⟩],
          []⟩).state.toc.dropLast.filter
        (fun e => decide (0 = 0 ∨ e.level ≤ 0))).map
          (fun e => (e.level, e.label, e.title)) := by
  obtain ⟨s1, he, hinc, hzero, htoc, hlen, hrend⟩ :=
    C9_toc_self_heading ⟨0, [1, 0, 0, 0, 0, 0], [⟨"A", 1, "1."⟩], []⟩ 0
      (by decide) (by decide) (by decide)
  rw [he]
  exact ⟨hinc, hzero 2 (by decide) (by decide), htoc, hrend⟩

/-- C8: evaluation of `BG_IMG_INLINE` on a missing or unreadable asset file.
The call is fatal (the `assert(f != NULL)` in `U_BG_TOBASE64` fires), but
the opening fragment `<img src="data:MIME;base64,` has already been written
to the output stream by the time the assertion aborts, so a fragment of the
embedding markup without its payload and closing quote is left in the
output.  This contradicts the claim that a missing asset is either a fatal
error or a silent no-op but never a partially-written embed, and it also
contradicts the doc comment of `U_BG_TOBASE64` ("If the file cannot be
opened, no output is produced"). -/
theorem C8_partial_fragment :
    (∀ (mime : String) (s : BGState),
      BG_IMG_INLINE mime none s =
        BGResult.fatal "File has to exist on the local file system and be readable!"
          { s with out := s.out ++
              [Item.raw ("<img src=\"data:" ++ mime ++ ";base64,")] }) ∧
    BG_IMG_INLINE "image/png" none initState =
      BGResult.fatal "File has to exist on the local file system and be readable!"
        { initState with out := [Item.raw "<img src=\"data:image/png;base64,"] } ∧
    (BG_IMG_INLINE "image/png" none initState).state.out =
      [Item.raw "<img src=\"data:image/png;base64,"] :=
  ⟨fun mime s => rfl, by decide, by decide⟩

theorem headingLabels_U_BG_INDENT (s : BGState) :
    headingLabels (U_BG_INDENT s).out = headingLabels s.out := by
  simp [U_BG_INDENT, headingLabels_append, headingLabels]

theorem headingLabels_BG_TAG (i : String) (s : BGState) :
    headingLabels (BG_TAG i s).out = headingLabels s.out := by
  simp [BG_TAG, U_BG_INDENT, headingLabels_append, headingLabels]

theorem headingLabels_BG_TAG_A (i a : String) (s : BGState) :
    headingLabels (BG_TAG_A i a s).out = headingLabels s.out := by
  simp [BG_TAG_A, U_BG_INDENT, headingLabels_append, headingLabels]

theorem headingLabels_BG_END (i : String) (s : BGState) :
    headingLabels (BG_END i s).out = headingLabels s.out := by
  simp [BG_END, U_BG_INDENT, headingLabels_append, headingLabels]

theorem headingLabels_bgHCore (level : Nat) (title : String) (s : BGState) :
    headingLabels (bgHCore level title s).out =
      headingLabels s.out ++ [hLabel level (newChapter level s.chapter)] := by
  rw [bgHCore_out]
  simp [headingLabels_append, headingLabels]

theorem headingLabels_emitTocItem (e : TocEntry) (s : BGState) :
    headingLabels (emitTocItem e s).out = headingLabels s.out := by
  simp [emitTocItem, U_BG_INDENT, headingLabels_append, headingLabels]

theorem headingLabels_renderTocItems (d : Nat) (l : List TocEntry) (s : BGState) :
    headingLabels (renderTocItems d l s).out = headingLabels s.out := by
  induction l generalizing s with
  | nil => rfl
  | cons e rest ih =>
      unfold renderTocItems
      split
      · exact ih s
      · rw [ih (emitTocItem e s), headingLabels_emitTocItem]

/-- The cross-call invariant behind C10: every stored TOC entry's label, and
every TOC list item already written to the output, refers to a label that
occurs as the anchor of an emitted heading line. -/
def goodState (s : BGState) : Prop :=
  (∀ e ∈ s.toc, e.label ∈ headingLabels s.out) ∧
  (∀ t ∈ tocItemsOf s.out, t.2.1 ∈ headingLabels s.out)

theorem goodState_initState : goodState initState := by
  constructor
  · intro e he
    simp [initState] at he
  · intro t ht
    simp [initState, tocItemsOf] at ht

theorem goodState_BG_TAG (i : String) (s : BGState) (h : goodState s) :
    goodState (BG_TAG i s) := by
  constructor
  · intro e he
    rw [BG_TAG_toc] at he
    rw [headingLabels_BG_TAG]
    exact h.1 e he
  · intro t ht
    rw [tocItemsOf_BG_TAG] at ht
    rw [headingLabels_BG_TAG]
    exact h.2 t ht

theorem goodState_BG_TAG_A (i a : String) (s : BGState) (h : goodState s) :
    goodState (BG_TAG_A i a s) := by
  constructor
  · intro e he
    rw [BG_TAG_A_toc] at he
    rw [headingLabels_BG_TAG_A]
    exact h.1 e he
  · intro t ht
    rw [tocItemsOf_BG_TAG_A] at ht
    rw [headingLabels_BG_TAG_A]
    exact h.2 t ht

theorem goodState_BG_END (i : String) (s : BGState) (h : goodState s) :
    goodState (BG_END i s) := by
  constructor
  · intro e he
    rw [BG_END_toc] at he
    rw [headingLabels_BG_END]
    exact h.1 e he
  · intro t ht
    rw [tocItemsOf_BG_END] at ht
    rw [headingLabels_BG_END]
    exact h.2 t ht

theorem goodState_BG_H (level : Nat) (title : String) (s s1 : BGState)
    (heq : BG_H level title s = BGResult.ok s1) (h : goodState s) :
    goodState s1 := by
  unfold BG_H at heq
  split_ifs at heq with h1 h2 h3
  rw [BGResult.ok.injEq] at heq
  subst heq
  constructor
  · intro e he
    have he' : e ∈ s.toc ++ [⟨title, level, hLabel level (newChapter level s.chapter)⟩] := he
    show e.label ∈ headingLabels (bgHCore level title s).out
    rw [headingLabels_bgHCore]
    rcases List.mem_append.1 he' with h' | h'
    · exact List.mem_append_left _ (h.1 e h')
    · rw [List.mem_singleton] at h'
      subst h'
      exact List.mem_append_right _ (by simp)
  · intro t ht
    have ht' : t ∈ tocItemsOf (bgHCore level title s).out := ht
    rw [tocItemsOf_bgHCore] at ht'
    show t.2.1 ∈ headingLabels (bgHCore level title s).out
    rw [headingLabels_bgHCore]
    exact List.mem_append_left _ (h.2 t ht')

theorem goodState_renderTocItems (d : Nat) (l : List TocEntry) (s : BGState)
    (hl : ∀ e ∈ l, e.label ∈ headingLabels s.out) (h : goodState s) :
    goodState (renderTocItems d l s) := by
  induction l generalizing s with
  | nil => exact h
  | cons e rest ih =>
      unfold renderTocItems
      split
      · exact ih s (fun e' he' => hl e' (by simp [he'])) h
      · refine ih (emitTocItem e s) ?_ ?_
        · intro e' he'
          rw [headingLabels_emitTocItem]
          exact hl e' (by simp [he'])
        · constructor
          · intro e' he'
            rw [headingLabels_emitTocItem]
            exact h.1 e' he'
          · intro t ht
            rw [headingLabels_emitTocItem]
            rw [tocItemsOf_emitTocItem] at ht
            rcases List.mem_append.1 ht with h' | h'
            · exact h.2 t h'
            · rw [List.mem_singleton] at h'
              subst h'
              exact hl e (by simp)

theorem goodState_BG_TOC (d : Nat) (s s1 : BGState)
    (heq : BG_TOC d s = BGResult.ok s1) (h : goodState s) :
    goodState s1 := by
  unfold BG_TOC at heq
  split_ifs at heq with h1
  cases hH : BG_H 1 "Table of Contents" (BG_TAG_A "div" "class=\"toc\"" s) with
  | fatal msg sf =>
      rw [hH] at heq
      cases heq
  | ok s2 =>
      rw [hH] at heq
      rw [BGResult.ok.injEq] at heq
      subst heq
      have h2 : goodState s2 :=
        goodState_BG_H 1 "Table of Contents" _ s2 hH
          (goodState_BG_TAG_A "div" "class=\"toc\"" s h)
      have h3 : goodState (BG_TAG "ul" s2) := goodState_BG_TAG "ul" s2 h2
      have h4 : goodState (renderTocItems d (BG_TAG "ul" s2).toc.dropLast
          (BG_TAG "ul" s2)) := by
        apply goodState_renderTocItems
        · intro e he
          rw [BG_TAG_toc] at he
          rw [headingLabels_BG_TAG]
          exact h2.1 e (List.dropLast_subset _ he)
        · exact h3
      exact goodState_BG_END "div" _ (goodState_BG_END "ul" _ h4)

theorem goodState_runOp (op : BGOp) (s s1 : BGState)
    (heq : runOp op s = BGResult.ok s1) (h : goodState s) : goodState s1 := by
  cases op with
  | tag i =>
      rw [runOp, BGResult.ok.injEq] at heq
      subst heq
      exact goodState_BG_TAG i s h
  | tagA i a =>
      rw [runOp, BGResult.ok.injEq] at heq
      subst heq
      exact goodState_BG_TAG_A i a s h
  | close i =>
      rw [runOp, BGResult.ok.injEq] at heq
      subst heq
      exact goodState_BG_END i s h
  | h lvl t => exact goodState_BG_H lvl t s s1 heq h
  | toc d => exact goodState_BG_TOC d s s1 heq h

theorem goodState_runOps (ops : List BGOp) (s s1 : BGState)
    (heq : runOps ops s = BGResult.ok s1) (h : goodState s) : goodState s1 := by
  induction ops generalizing s with
  | nil =>
      rw [runOps, BGResult.ok.injEq] at heq
      subst heq
      exact h
  | cons op rest ih =>
      rw [runOps] at heq
      cases hop : runOp op s with
      | fatal msg sf =>
          rw [hop] at heq
          cases heq
      | ok s2 =>
          rw [hop] at heq
          exact ih s2 heq (goodState_runOp op s s2 hop h)

/-- C10: in every state reachable by a successful call sequence from the
initial state, every TOC list item present in the output carries an anchor
target label that also occurs as the label of an emitted heading line.
Since `Item.render` prints a `tocItem` with `href="#label"` and a `heading`
with `id="label"`, both directly from the same stored label string, every
link in a rendered TOC targets a heading anchor that exists in the
document. -/
theorem C10_anchor_targets (ops : List BGOp) (s1 : BGState)
    (h : runOps ops initState = BGResult.ok s1) :
    ∀ t ∈ tocItemsOf s1.out, t.2.1 ∈ headingLabels s1.out :=
  (goodState_runOps ops initState s1 h goodState_initState).2

/-- Witness for C10 on a concrete run with one heading and one TOC render:
the one rendered TOC item targets label "1.", which is among the emitted
heading anchors. -/
theorem C10_witness :
    ((1, "1.", "A") : Nat × String × String).2.1 ∈
      headingLabels (runOps [BGOp.h 1 "A", BGOp.toc 0] initState).state.out :=
  C10_anchor_targets [BGOp.h 1 "A", BGOp.toc 0]
    (runOps [BGOp.h 1 "A", BGOp.toc 0] initState).state rfl
    (1, "1.", "A") (by decide)

end BookGen

